import Mathlib

/-!
# Smart Waste Management System — verification of the AI core

Shallow embedding of the two pure algorithmic modules of the repository:

* `backend/ai/predictor.py` — `WasteLevelPredictor`: fill-rate estimation by
  ordinary-least-squares regression, time-to-full prediction, and
  classification/ranking of bins needing collection;
* `backend/ai/route_optimizer.py` — `RouteOptimizer`: greedy priority-weighted
  nearest-neighbour route construction.

Modelling conventions:

* Python floats and MySQL decimals are modelled as exact rationals `ℚ`.
  `round(x, n)` (Python 3 banker's rounding) is modelled as exact
  round-half-to-even on `ℚ` (`pyRound`).
* The database is dependency-injected: `get_all_bins()` / `get_bin_by_id()` /
  the `sensor_logs` query become explicit snapshot parameters
  (`all_bins : List BinRow`, `lookup : ℕ → Option BinRow`,
  `logs : ℕ → List Reading`), exactly the snapshots the SQL returns.
* `calculate_distance` is the haversine formula over floating-point
  trigonometric functions; it has no exact executable embedding, so the
  route optimizer is parameterized by the distance oracle
  `dist : ℚ → ℚ → ℚ → ℚ → ℚ` (arguments `lat1 lon1 lat2 lon2`, like the
  Python method).  All route-structure theorems are proved for every such
  oracle; where a property of haversine is needed (non-negativity,
  zero self-distance) it is taken as an explicit hypothesis.
* `sklearn.linear_model.LinearRegression().fit` on a single feature with an
  intercept computes the ordinary-least-squares slope
  `Sxy / Sxx`; on a degenerate design (`Sxx = 0`, all timestamps equal) it
  returns coefficient `0`.  `ℚ` division by zero is `0`, so `olsSlope`
  covers the degenerate branch with the same formula.
* Python truthiness on nullable decimal columns
  (`bin_data['latitude'] and bin_data['longitude']`) is modelled by
  `truthy : Option ℚ → Bool`, which is `false` both for SQL `NULL` (`none`)
  and for the value `0`.
-/

namespace SmartWaste

/-! ## Python `round(x, ndigits)` on exact rationals -/

/-- Round a rational to the nearest integer, ties to even
(Python 3 / IEEE 754 `round` policy, idealized to exact arithmetic). -/
def roundHalfEven (q : ℚ) : ℤ :=
  let f : ℤ := ⌊q⌋
  let r : ℚ := q - f
  if r < 1/2 then f
  else if 1/2 < r then f + 1
  else if f % 2 = 0 then f else f + 1

/-- Python `round(q, n)`: round to `n` decimal digits, ties to even. -/
def pyRound (n : ℕ) (q : ℚ) : ℚ :=
  (roundHalfEven (q * 10 ^ n) : ℚ) / 10 ^ n

/-! ## Predictor: sensor readings and fill-rate estimation
(`backend/ai/predictor.py`) -/

/-- One row of the `sensor_logs` query
(`SELECT waste_level, timestamp FROM sensor_logs ... ORDER BY timestamp ASC`).
`timestamp` is an absolute instant measured in seconds (the embedding of a
`datetime`; only differences of timestamps are ever used, scaled by
`total_seconds() / 3600`). -/
structure Reading where
  timestamp : ℚ
  waste_level : ℚ
deriving DecidableEq

/-- The hours-elapsed conversion
`(log['timestamp'] - base_time).total_seconds() / 3600`. -/
def hoursSince (base t : ℚ) : ℚ := (t - base) / 3600

/-- The regression design built by `get_fill_rate`: each reading becomes the
point `(hours since first reading, waste level)`. -/
def fitPoints (logs : List Reading) : List (ℚ × ℚ) :=
  match logs with
  | [] => []
  | l0 :: _ => logs.map (fun l => (hoursSince l0.timestamp l.timestamp, l.waste_level))

/-- Ordinary-least-squares slope of `y` against `x` with an intercept:
`Sxy / Sxx` about the means.  This is the value
`LinearRegression().fit(X, y).coef_[0]` computes for a single feature.
For a degenerate design (`Sxx = 0`, which forces `Sxy = 0`) the quotient is
`0 / 0 = 0` in `ℚ`, matching the least-squares minimum-norm coefficient `0`. -/
def olsSlope (pts : List (ℚ × ℚ)) : ℚ :=
  let n : ℚ := pts.length
  let xbar : ℚ := (pts.map Prod.fst).sum / n
  let ybar : ℚ := (pts.map Prod.snd).sum / n
  let sxx : ℚ := (pts.map (fun p => (p.1 - xbar) * (p.1 - xbar))).sum
  let sxy : ℚ := (pts.map (fun p => (p.1 - xbar) * (p.2 - ybar))).sum
  sxy / sxx

/-- Sum of squared residuals of the affine fit `level = a + b·hours` — the
objective `LinearRegression.fit` minimizes.  `olsSlope` (together with the
intercept `ȳ - olsSlope·x̄`) is proved below to minimize it
(`olsSlope_minimizes_sse`), justifying the closed-form embedding of the
sklearn call. -/
def sse (pts : List (ℚ × ℚ)) (a b : ℚ) : ℚ :=
  (pts.map (fun p => (p.2 - (a + b * p.1)) * (p.2 - (a + b * p.1)))).sum

/-- Embedding of `WasteLevelPredictor.get_fill_rate`, with the sensor-log query result
passed in as `logs`.  Mirrors the source: fewer than two readings → default
`2.0`; otherwise the regression slope, clamped — `fill_rate <= 0` → `2.0`,
`fill_rate > 10` → `10.0`. -/
def get_fill_rate (logs : List Reading) : ℚ :=
  if logs.length < 2 then 2
  else
    let fill_rate := olsSlope (fitPoints logs)
    if fill_rate ≤ 0 then 2
    else if 10 < fill_rate then 10
    else fill_rate

/-- Embedding of `WasteLevelPredictor.predict_time_to_full` (the unused `bin_id` argument
is dropped): `current_level >= 100` → `0`; a non-positive rate is replaced by
`2.0`; otherwise `(100 - current_level) / fill_rate`. -/
def predict_time_to_full (current_level fill_rate : ℚ) : ℚ :=
  if 100 ≤ current_level then 0
  else
    let fr := if fill_rate ≤ 0 then 2 else fill_rate
    (100 - current_level) / fr

/-! ## Predictor: bin classification and ranking -/

/-- A row of the `bins` table as returned by `get_all_bins` /
`get_bin_by_id`.  `latitude` / `longitude` are nullable decimal columns:
`none` models SQL `NULL`. -/
structure BinRow where
  bin_id : ℕ
  bin_code : String
  location : String
  zone : String
  latitude : Option ℚ
  longitude : Option ℚ
  waste_level : ℚ
  status : String
deriving DecidableEq

/-- Python truthiness of a nullable numeric column: `None` is falsy and so is
the number `0` (so `if bin_data['latitude']` rejects both `NULL` and `0.0`). -/
def truthy : Option ℚ → Bool
  | none => false
  | some v => decide (v ≠ 0)

/-- The coordinate coercion
`float(bin_data['latitude']) if bin_data['latitude'] else None`
(predictor.py lines 161–162): a coordinate that is `NULL` *or zero* becomes
`None` in the prediction record. -/
def pyOptCoord (o : Option ℚ) : Option ℚ :=
  if truthy o then o else none

/-- One prediction record appended by `predict_bins_needing_collection`. -/
structure Prediction where
  bin_id : ℕ
  bin_code : String
  location : String
  zone : String
  current_level : ℚ
  fill_rate : ℚ
  hours_to_full : ℚ
  predicted_level_24h : ℚ
  priority : String
  needs_collection : Bool
  latitude : Option ℚ
  longitude : Option ℚ
deriving DecidableEq

/-- The priority assignment of predictor.py lines 139–146:
`priority = 'low'`, overridden by the `if current_level >= 90` /
`elif current_level >= 80` / `elif hours_to_full <= threshold_hours`
chain — as a functional conditional. -/
def pyPriority (current_level hours_to_full threshold_hours : ℚ) : String :=
  if 90 ≤ current_level then "critical"
  else if 80 ≤ current_level then "high"
  else if hours_to_full ≤ threshold_hours then "medium"
  else "low"

/-- Modelled from the spec: "Priority tiers (first match wins, evaluated in
this order)" — the ordered rule list `level ≥ 90 → critical`,
`level ≥ 80 → high`, `hours_to_full ≤ threshold_hours → medium`. -/
def specPriorityRules (current_level hours_to_full threshold_hours : ℚ) :
    List (Bool × String) :=
  [(decide (90 ≤ current_level), "critical"),
   (decide (80 ≤ current_level), "high"),
   (decide (hours_to_full ≤ threshold_hours), "medium")]

/-- Modelled from the spec: first rule whose condition holds wins;
if none fires the tier is `low`. -/
def specPriority (current_level hours_to_full threshold_hours : ℚ) : String :=
  match (specPriorityRules current_level hours_to_full threshold_hours).find? Prod.fst with
  | some r => r.2
  | none => "low"

/-- The body of the `for bin_data in all_bins` loop for one active bin:
the prediction record built from predictor.py lines 125–163.
`logs` is the sensor-log table (bin id ↦ its last-7-day readings). -/
def mkPrediction (logs : ℕ → List Reading) (threshold_hours : ℚ) (b : BinRow) :
    Prediction :=
  let current_level := b.waste_level
  let fill_rate := get_fill_rate (logs b.bin_id)
  let hours_to_full := predict_time_to_full current_level fill_rate
  let predicted_level := current_level + fill_rate * threshold_hours
  let predicted_level := if 100 < predicted_level then 100 else predicted_level
  { bin_id := b.bin_id
    bin_code := b.bin_code
    location := b.location
    zone := b.zone
    current_level := pyRound 2 current_level
    fill_rate := pyRound 2 fill_rate
    hours_to_full := pyRound 1 hours_to_full
    predicted_level_24h := pyRound 2 predicted_level
    priority := pyPriority current_level hours_to_full threshold_hours
    needs_collection :=
      decide (hours_to_full ≤ threshold_hours) || decide (80 ≤ current_level)
    latitude := pyOptCoord b.latitude
    longitude := pyOptCoord b.longitude }

/-- The inclusion test of predictor.py line 149:
`current_level >= 70 or hours_to_full <= threshold_hours`. -/
def needsAttention (logs : ℕ → List Reading) (threshold_hours : ℚ) (b : BinRow) :
    Bool :=
  let fill_rate := get_fill_rate (logs b.bin_id)
  let hours_to_full := predict_time_to_full b.waste_level fill_rate
  decide (70 ≤ b.waste_level) || decide (hours_to_full ≤ threshold_hours)

/-- The tier-rank dictionary:
critical 0, high 1, medium 2, low 3. -/
def priority_order (p : String) : ℕ :=
  if p = "critical" then 0
  else if p = "high" then 1
  else if p = "medium" then 2
  else 3

/-- The sort key of predictor.py line 167:
`(priority_order[x['priority']], -x['current_level'])`
(note `current_level` here is the rounded value stored in the record). -/
def predKey (p : Prediction) : ℕ × ℚ :=
  (priority_order p.priority, -p.current_level)

/-- Python's ascending lexicographic tuple comparison on `predKey`, as the
`le` relation of a stable sort. -/
def predLe (p q : Prediction) : Bool :=
  decide ((predKey p).1 < (predKey q).1 ∨
    ((predKey p).1 = (predKey q).1 ∧ (predKey p).2 ≤ (predKey q).2))

/-- The prediction list accumulated by the loop of
`predict_bins_needing_collection`, before sorting: active bins that pass the
inclusion test, in input order. -/
def rawPredictions (logs : ℕ → List Reading) (threshold_hours : ℚ)
    (all_bins : List BinRow) : List Prediction :=
  (((all_bins.filter (fun b => b.status = "active")).filter
      (needsAttention logs threshold_hours)).map
    (mkPrediction logs threshold_hours))

/-- Embedding of `WasteLevelPredictor.predict_bins_needing_collection` with the storage
snapshot injected: build the prediction records, then
`predictions.sort(key=lambda x: (priority_order[x['priority']], -x['current_level']))`
(Python's stable sort, modelled by `List.mergeSort`). -/
def predict_bins_needing_collection (logs : ℕ → List Reading)
    (all_bins : List BinRow) (threshold_hours : ℚ) : List Prediction :=
  (rawPredictions logs threshold_hours all_bins).mergeSort predLe

/-- Embedding of `WasteLevelPredictor.get_optimal_collection_bins`: predictions for a
24-hour window, filtered to `needs_collection`, truncated to `max_bins`. -/
def get_optimal_collection_bins (logs : ℕ → List Reading)
    (all_bins : List BinRow) (max_bins : ℕ) : List Prediction :=
  ((predict_bins_needing_collection logs all_bins 24).filter
    (fun p => p.needs_collection)).take max_bins

/-! ## Route optimizer (`backend/ai/route_optimizer.py`)

The distance oracle `dist lat1 lon1 lat2 lon2` stands for
`RouteOptimizer.calculate_distance` (the haversine great-circle formula,
Earth radius 6371 km).  Haversine satisfies `0 ≤ dist …` and
`dist a b a b = 0`; theorems that need those facts take them as hypotheses. -/

/-- Embedding of `RouteOptimizer.get_bin_priority_score`: step function of the waste
level, `≥90 → 100`, `≥80 → 80`, `≥70 → 60`, `≥60 → 40`, else `20`. -/
def get_bin_priority_score (waste_level : ℚ) : ℚ :=
  if 90 ≤ waste_level then 100
  else if 80 ≤ waste_level then 80
  else if 70 ≤ waste_level then 60
  else if 60 ≤ waste_level then 40
  else 20

/-- One entry of the `bins` working list built by `optimize_route`
(lines 92–100): a bin that passed the coordinate truthiness check, with its
priority score attached. -/
structure VBin where
  bin_id : ℕ
  bin_code : String
  location : String
  latitude : ℚ
  longitude : ℚ
  waste_level : ℚ
  priority_score : ℚ
deriving DecidableEq

/-- The per-id body of the fetch loop (lines 89–100):
`if bin_data and bin_data['latitude'] and bin_data['longitude']` — Python
truthiness, so `NULL` *and* `0.0` coordinates cause the bin to be skipped. -/
def toVBin (b : BinRow) : Option VBin :=
  if truthy b.latitude && truthy b.longitude then
    some { bin_id := b.bin_id
           bin_code := b.bin_code
           location := b.location
           latitude := b.latitude.getD 0
           longitude := b.longitude.getD 0
           waste_level := b.waste_level
           priority_score := get_bin_priority_score b.waste_level }
  else none

/-- The full fetch loop: look every id up, keep the rows that pass the
truthiness check, in id-list order. -/
def fetchBins (lookup : ℕ → Option BinRow) (bin_ids : List ℕ) : List VBin :=
  bin_ids.filterMap (fun i => (lookup i).bind toVBin)

/-- The relation behind
`bins.sort(key=lambda x: x['priority_score'], reverse=True)` — Python's
stable descending sort, modelled by a stable merge sort whose `le` relation
puts higher scores first (ties keep input order). -/
def priorityDescLe (a b : VBin) : Bool :=
  decide (b.priority_score ≤ a.priority_score)

/-- The sorted pool used when no start location is given (line 114). -/
def sortByPriorityDesc (bins : List VBin) : List VBin :=
  bins.mergeSort priorityDescLe

/-- The constant `distance_weight = 5` (line 126). -/
def distance_weight : ℚ := 5

/-- Distance from the current position to a candidate bin (lines 132–135). -/
def binDist (dist : ℚ → ℚ → ℚ → ℚ → ℚ) (clat clon : ℚ) (b : VBin) : ℚ :=
  dist clat clon b.latitude b.longitude

/-- The composite score
`score = bin_data['priority_score'] - (distance * distance_weight)`
(line 138). -/
def binScore (dist : ℚ → ℚ → ℚ → ℚ → ℚ) (clat clon : ℚ) (b : VBin) : ℚ :=
  b.priority_score - binDist dist clat clon b * distance_weight

/-- One step of the best-candidate scan (lines 128–143): the accumulator is
`(best_bin, best_distance, best_score)`, starting at
`(None, -, -inf)`; a candidate replaces it only on a strictly greater score,
so the first bin seen always replaces `None` and ties keep the earlier bin. -/
def selectStep (dist : ℚ → ℚ → ℚ → ℚ → ℚ) (clat clon : ℚ)
    (acc : Option (VBin × ℚ × ℚ)) (b : VBin) : Option (VBin × ℚ × ℚ) :=
  let d := binDist dist clat clon b
  let s := binScore dist clat clon b
  match acc with
  | none => some (b, d, s)
  | some (b0, d0, s0) => if s0 < s then some (b, d, s) else some (b0, d0, s0)

/-- The inner `for bin_data in remaining_bins` scan of lines 131–143. -/
def selectBest (dist : ℚ → ℚ → ℚ → ℚ → ℚ) (clat clon : ℚ)
    (l : List VBin) : Option (VBin × ℚ × ℚ) :=
  l.foldl (selectStep dist clat clon) none

/-- The `while remaining_bins` loop (lines 123–161), producing the chosen
bins in visiting order, each with its (unrounded) `best_distance` from the
previous position.  `remaining_bins.remove(best_bin)` removes the first
occurrence equal to `best_bin`, which is `List.erase`. -/
def nnLoop (dist : ℚ → ℚ → ℚ → ℚ → ℚ) (remaining : List VBin)
    (clat clon : ℚ) : List (VBin × ℚ) :=
  match h : selectBest dist clat clon remaining with
  | none => []
  | some (b, d, _) => (b, d) :: nnLoop dist (remaining.erase b) b.latitude b.longitude
termination_by remaining.length
decreasing_by
  have hmem : b ∈ remaining := by
    have key : ∀ (l : List VBin) (acc : Option (VBin × ℚ × ℚ)) (x : VBin) (y z : ℚ),
        l.foldl (selectStep dist clat clon) acc = some (x, y, z) →
        acc = some (x, y, z) ∨ x ∈ l := by
      intro l
      induction l with
      | nil => intro acc x y z hf; exact Or.inl hf
      | cons a as ih =>
        intro acc x y z hf
        rcases ih (selectStep dist clat clon acc a) x y z hf with h1 | h1
        · rcases acc with _ | ⟨b0, d0, s0⟩
          · simp only [selectStep, Option.some.injEq, Prod.mk.injEq] at h1
            obtain ⟨rfl, -⟩ := h1
            exact Or.inr (List.mem_cons_self a as)
          · simp only [selectStep] at h1
            split at h1
            · simp only [Option.some.injEq, Prod.mk.injEq] at h1
              obtain ⟨rfl, -⟩ := h1
              exact Or.inr (List.mem_cons_self a as)
            · exact Or.inl h1
        · exact Or.inr (List.mem_cons_of_mem a h1)
    rcases key remaining none b d _ h with h1 | h1
    · exact absurd h1 (by simp)
    · exact h1
  have hlen : (remaining.erase b).length = remaining.length - 1 :=
    List.length_erase_of_mem hmem
  have hpos : 0 < remaining.length := List.length_pos.mpr (List.ne_nil_of_mem hmem)
  omega

/-- One entry of the returned `optimized_route` list (lines 147–156).
The stored `distance_from_previous` is `round(best_distance, 2)`. -/
structure RouteStop where
  sequence : ℕ
  bin_id : ℕ
  bin_code : String
  location : String
  latitude : ℚ
  longitude : ℚ
  waste_level : ℚ
  distance_from_previous : ℚ
deriving DecidableEq

/-- The dictionary returned by `optimize_route`.  The two early returns
(lines 80–85 and 102–107) omit the `total_bins` and `average_waste_level`
keys and use a different `optimization_method` string, hence the `Option`
fields. -/
structure RouteResult where
  bins : List RouteStop
  total_bins : Option ℕ
  total_distance : ℚ
  optimization_method : String
  average_waste_level : Option ℚ
deriving DecidableEq

/-- The early-return value
`{'bins': [], 'total_distance': 0, 'optimization_method': 'nearest_neighbor'}`. -/
def emptyRoute : RouteResult :=
  { bins := []
    total_bins := none
    total_distance := 0
    optimization_method := "nearest_neighbor"
    average_waste_level := none }

/-- One stop record appended at lines 147–156; `n` is the number of stops
already in the route (`sequence = len(optimized_route) + 1`), and the stored
distance is `round(best_distance, 2)`. -/
def mkStops : ℕ → List (VBin × ℚ) → List RouteStop
  | _, [] => []
  | n, (b, d) :: rest =>
    { sequence := n + 1
      bin_id := b.bin_id
      bin_code := b.bin_code
      location := b.location
      latitude := b.latitude
      longitude := b.longitude
      waste_level := b.waste_level
      distance_from_previous := pyRound 2 d } :: mkStops (n + 1) rest

/-- The final dictionary of lines 163–169, assembled from the visiting order
produced by the greedy loop: `total_distance` is the *running sum of the
unrounded* `best_distance` values, rounded once at the end;
`average_waste_level` is the rounded mean of the included levels, with the
Python conditional expression `... if optimized_route else 0`. -/
def assembleRoute (pairs : List (VBin × ℚ)) : RouteResult :=
  let optimized_route := mkStops 0 pairs
  { bins := optimized_route
    total_bins := some optimized_route.length
    total_distance := pyRound 2 (pairs.map Prod.snd).sum
    optimization_method := "nearest_neighbor_priority_weighted"
    average_waste_level := some
      (if optimized_route = [] then 0
       else pyRound 2
         ((optimized_route.map RouteStop.waste_level).sum / optimized_route.length)) }

/-- Embedding of `RouteOptimizer.optimize_route` with the storage lookup and the distance
oracle injected.  Empty id list → early return; no bin surviving the
coordinate check → early return; an explicit `start_location` seeds the
greedy loop over the fetched pool in fetch order; otherwise the pool is
priority-sorted (descending, stable) and the head's coordinates seed the
loop over the *whole* sorted pool (the highest-priority bin is not removed
before the loop). -/
def optimize_route (dist : ℚ → ℚ → ℚ → ℚ → ℚ) (lookup : ℕ → Option BinRow)
    (bin_ids : List ℕ) (start_location : Option (ℚ × ℚ)) : RouteResult :=
  if bin_ids = [] then emptyRoute
  else
    let bins := fetchBins lookup bin_ids
    if bins = [] then emptyRoute
    else
      match start_location with
      | some (la, lo) => assembleRoute (nnLoop dist bins la lo)
      | none =>
        match sortByPriorityDesc bins with
        | [] => emptyRoute
        | h :: tl => assembleRoute (nnLoop dist (h :: tl) h.latitude h.longitude)

/-- Modelled from the spec: "pick the bin with the highest priority score
(ties: first encountered)" — the first list element whose score is maximal. -/
def firstMaxPriority (bins : List VBin) : Option VBin :=
  bins.find? (fun b => bins.all (fun b' => b'.priority_score ≤ b.priority_score))

/-- Modelled from the spec: the start-handling §4.2 describes for a missing
`start` — the highest-priority bin "becomes stop #1 immediately — it is not
re-scored with the distance-weighted rule below, and removed from the
remaining pool before the main loop".  Stop #1 carries hop distance 0; the
main loop then runs from its coordinates over the rest of the
(priority-sorted) pool. -/
def route_preRemoval (dist : ℚ → ℚ → ℚ → ℚ → ℚ) (lookup : ℕ → Option BinRow)
    (bin_ids : List ℕ) : RouteResult :=
  if bin_ids = [] then emptyRoute
  else
    match sortByPriorityDesc (fetchBins lookup bin_ids) with
    | [] => emptyRoute
    | h :: tl => assembleRoute ((h, 0) :: nnLoop dist tl h.latitude h.longitude)

/-- The consecutive hop distances along a stop sequence, as measured by the
distance oracle on the stops' (raw) coordinates, starting from position
`p0`. -/
def hops (dist : ℚ → ℚ → ℚ → ℚ → ℚ) (p0 : ℚ × ℚ) : List RouteStop → List ℚ
  | [] => []
  | s :: rest => dist p0.1 p0.2 s.latitude s.longitude :: hops dist (s.latitude, s.longitude) rest

/-- The position the greedy loop starts from, when there is one: the given
`start_location`, or the coordinates of the head of the priority-sorted
valid pool. -/
def initialPos (lookup : ℕ → Option BinRow) (bin_ids : List ℕ)
    (start_location : Option (ℚ × ℚ)) : Option (ℚ × ℚ) :=
  match start_location with
  | some s => some s
  | none =>
    (sortByPriorityDesc (fetchBins lookup bin_ids)).head?.map
      (fun h => (h.latitude, h.longitude))

/-! ## Concrete fixtures used by witnesses and counterexamples -/

/-- Hourly readings 10% → 15% → 20% (timestamps in seconds). -/
def exLinear : List Reading := [⟨0, 10⟩, ⟨3600, 15⟩, ⟨7200, 20⟩]

/-- Hourly readings 20% → 15% → 10%: a perfectly linear *decreasing* series,
whose least-squares slope is `-5`. -/
def exDecreasing : List Reading := [⟨0, 20⟩, ⟨3600, 15⟩, ⟨7200, 10⟩]

/-- A taxicab distance oracle: non-negative with zero self-distance, the two
facts the route theorems assume of haversine. -/
def distTaxi (lat1 lon1 lat2 lon2 : ℚ) : ℚ := |lat1 - lat2| + |lon1 - lon2|

/-- A constant distance oracle returning 0.004 km, used to exhibit the
rounding mismatch between per-stop and total distances. -/
def distConst (_ _ _ _ : ℚ) : ℚ := 1/250

/-- An active bin sitting on the equator: latitude `0.0` is a present,
geographically valid coordinate, but Python truthiness treats it as missing. -/
def rowEquator : BinRow :=
  { bin_id := 1, bin_code := "BIN001", location := "Equator Rd", zone := "Z1"
    latitude := some 0, longitude := some 10, waste_level := 50, status := "active" }

/-- Storage snapshot containing only `rowEquator` at id 1. -/
def lookupEquator (i : ℕ) : Option BinRow :=
  if i = 1 then some rowEquator else none

/-- A near-full bin (priority score 100). -/
def rowHigh : BinRow :=
  { bin_id := 1, bin_code := "BIN001", location := "Main St", zone := "Z1"
    latitude := some 5, longitude := some 5, waste_level := 95, status := "active" }

/-- A half-full bin (priority score 20). -/
def rowLow : BinRow :=
  { bin_id := 2, bin_code := "BIN002", location := "Oak Ave", zone := "Z1"
    latitude := some 6, longitude := some 6, waste_level := 50, status := "active" }

/-- Storage snapshot with `rowHigh` at id 1 and `rowLow` at id 2. -/
def lookupPair (i : ℕ) : Option BinRow :=
  if i = 1 then some rowHigh else if i = 2 then some rowLow else none

/-- An empty sensor-log table (every bin falls back to the default rate). -/
def logsEmpty (_ : ℕ) : List Reading := []

/-- The validated-bin record the fetch loop builds from `rowHigh`. -/
def vbHigh : VBin :=
  { bin_id := 1, bin_code := "BIN001", location := "Main St"
    latitude := 5, longitude := 5, waste_level := 95, priority_score := 100 }

/-- The validated-bin record the fetch loop builds from `rowLow`. -/
def vbLow : VBin :=
  { bin_id := 2, bin_code := "BIN002", location := "Oak Ave"
    latitude := 6, longitude := 6, waste_level := 50, priority_score := 20 }

/-- The bin-identifying payload of a route stop (everything except the
route-relative `sequence` and `distance_from_previous`). -/
def stopData (s : RouteStop) : ℕ × String × String × ℚ × ℚ × ℚ :=
  (s.bin_id, s.bin_code, s.location, s.latitude, s.longitude, s.waste_level)

/-- The corresponding payload of a validated bin. -/
def vbinData (b : VBin) : ℕ × String × String × ℚ × ℚ × ℚ :=
  (b.bin_id, b.bin_code, b.location, b.latitude, b.longitude, b.waste_level)

/-! ## Theorems -/

/-! ### Least-squares optimality of the embedded slope

`olsSlope` was translated from `LinearRegression().fit(X, y).coef_[0]` as the
closed-form normal-equation solution.  The following lemmas prove that, for a
non-degenerate design, the pair `(ȳ - olsSlope·x̄, olsSlope)` minimizes the
sum of squared residuals over all lines — i.e. the embedding really is the
least-squares fit the source computes. -/

theorem sum_map_sq_affine (l : List (ℚ × ℚ)) (a b : ℚ) :
    (l.map (fun p => (p.2 - (a + b * p.1)) * (p.2 - (a + b * p.1)))).sum =
      (l.map (fun p => p.2 * p.2)).sum - 2*a*(l.map Prod.snd).sum
      - 2*b*(l.map (fun p => p.1 * p.2)).sum + 2*a*b*(l.map Prod.fst).sum
      + a*a*(l.length : ℚ) + b*b*(l.map (fun p => p.1 * p.1)).sum := by
  induction l with
  | nil => simp
  | cons p rest ih =>
    simp only [List.map_cons, List.sum_cons, List.length_cons, ih]
    push_cast
    ring

theorem sum_map_centered_sq (l : List (ℚ × ℚ)) (m : ℚ) :
    (l.map (fun p => (p.1 - m) * (p.1 - m))).sum =
      (l.map (fun p => p.1 * p.1)).sum - 2*m*(l.map Prod.fst).sum
      + m*m*(l.length : ℚ) := by
  induction l with
  | nil => simp
  | cons p rest ih =>
    simp only [List.map_cons, List.sum_cons, List.length_cons, ih]
    push_cast
    ring

theorem sum_map_centered_xy (l : List (ℚ × ℚ)) (mx my : ℚ) :
    (l.map (fun p => (p.1 - mx) * (p.2 - my))).sum =
      (l.map (fun p => p.1 * p.2)).sum - mx*(l.map Prod.snd).sum
      - my*(l.map Prod.fst).sum + mx*my*(l.length : ℚ) := by
  induction l with
  | nil => simp
  | cons p rest ih =>
    simp only [List.map_cons, List.sum_cons, List.length_cons, ih]
    push_cast
    ring

theorem sum_map_centered_sq_nonneg (l : List (ℚ × ℚ)) (m : ℚ) :
    0 ≤ (l.map (fun p => (p.1 - m) * (p.1 - m))).sum := by
  apply List.sum_nonneg
  intro x hx
  obtain ⟨p, -, rfl⟩ := List.mem_map.mp hx
  exact mul_self_nonneg _

theorem scalar_ols (N SX SY SXX SXY SYY xb yb bh a b : ℚ)
    (hN : 0 ≤ N) (hC : 0 ≤ SXX - N*xb*xb)
    (hSX : N*xb = SX) (hSY : N*yb = SY)
    (hbh : (SXX - N*xb*xb) * bh = SXY - N*xb*yb) :
    SYY - 2*(yb - bh*xb)*SY - 2*bh*SXY + 2*(yb - bh*xb)*bh*SX
      + (yb - bh*xb)*(yb - bh*xb)*N + bh*bh*SXX ≤
    SYY - 2*a*SY - 2*b*SXY + 2*a*b*SX + a*a*N + b*b*SXX := by
  subst hSX
  subst hSY
  have key : (SYY - 2*a*(N*yb) - 2*b*SXY + 2*a*b*(N*xb) + a*a*N + b*b*SXX)
      - (SYY - 2*(yb - bh*xb)*(N*yb) - 2*bh*SXY + 2*(yb - bh*xb)*bh*(N*xb)
        + (yb - bh*xb)*(yb - bh*xb)*N + bh*bh*SXX)
      = (SXX - N*xb*xb)*(b - bh)*(b - bh) + N*((yb - a - b*xb)*(yb - a - b*xb)) := by
    linear_combination (2*b - 2*bh) * hbh
  have h1 : 0 ≤ (SXX - N*xb*xb)*(b - bh)*(b - bh) := by
    rw [mul_assoc]
    exact mul_nonneg hC (mul_self_nonneg _)
  have h2 : 0 ≤ N*((yb - a - b*xb)*(yb - a - b*xb)) :=
    mul_nonneg hN (mul_self_nonneg _)
  linarith

theorem olsSlope_minimizes_sse (pts : List (ℚ × ℚ)) (hne : pts ≠ [])
    (hsxx : (pts.map (fun p =>
        (p.1 - (pts.map Prod.fst).sum / (pts.length : ℚ)) *
        (p.1 - (pts.map Prod.fst).sum / (pts.length : ℚ)))).sum ≠ 0)
    (a b : ℚ) :
    sse pts ((pts.map Prod.snd).sum / (pts.length : ℚ)
        - olsSlope pts * ((pts.map Prod.fst).sum / (pts.length : ℚ)))
      (olsSlope pts) ≤ sse pts a b := by
  have hN : (0 : ℚ) < (pts.length : ℚ) := by
    have h := List.length_pos.mpr hne
    exact_mod_cast h
  have hN' : ((pts.length : ℚ)) ≠ 0 := ne_of_gt hN
  have hxx' : (pts.map (fun p =>
      (p.1 - (pts.map Prod.fst).sum / (pts.length : ℚ)) *
      (p.1 - (pts.map Prod.fst).sum / (pts.length : ℚ)))).sum =
      (pts.map (fun p => p.1 * p.1)).sum -
        (pts.length : ℚ) * ((pts.map Prod.fst).sum / (pts.length : ℚ)) *
          ((pts.map Prod.fst).sum / (pts.length : ℚ)) := by
    rw [sum_map_centered_sq]
    field_simp
    ring
  have hxy' : (pts.map (fun p =>
      (p.1 - (pts.map Prod.fst).sum / (pts.length : ℚ)) *
      (p.2 - (pts.map Prod.snd).sum / (pts.length : ℚ)))).sum =
      (pts.map (fun p => p.1 * p.2)).sum -
        (pts.length : ℚ) * ((pts.map Prod.fst).sum / (pts.length : ℚ)) *
          ((pts.map Prod.snd).sum / (pts.length : ℚ)) := by
    rw [sum_map_centered_xy]
    field_simp
    ring
  have hslope : olsSlope pts =
      ((pts.map (fun p => p.1 * p.2)).sum -
        (pts.length : ℚ) * ((pts.map Prod.fst).sum / (pts.length : ℚ)) *
          ((pts.map Prod.snd).sum / (pts.length : ℚ))) /
      ((pts.map (fun p => p.1 * p.1)).sum -
        (pts.length : ℚ) * ((pts.map Prod.fst).sum / (pts.length : ℚ)) *
          ((pts.map Prod.fst).sum / (pts.length : ℚ))) := by
    show (pts.map (fun p =>
        (p.1 - (pts.map Prod.fst).sum / (pts.length : ℚ)) *
        (p.2 - (pts.map Prod.snd).sum / (pts.length : ℚ)))).sum /
      (pts.map (fun p =>
        (p.1 - (pts.map Prod.fst).sum / (pts.length : ℚ)) *
        (p.1 - (pts.map Prod.fst).sum / (pts.length : ℚ)))).sum = _
    rw [hxx', hxy']
  have hCne : (pts.map (fun p => p.1 * p.1)).sum -
      (pts.length : ℚ) * ((pts.map Prod.fst).sum / (pts.length : ℚ)) *
        ((pts.map Prod.fst).sum / (pts.length : ℚ)) ≠ 0 := by
    rw [← hxx']
    exact hsxx
  have hCnn : 0 ≤ (pts.map (fun p => p.1 * p.1)).sum -
      (pts.length : ℚ) * ((pts.map Prod.fst).sum / (pts.length : ℚ)) *
        ((pts.map Prod.fst).sum / (pts.length : ℚ)) := by
    rw [← hxx']
    exact sum_map_centered_sq_nonneg pts _
  have hbh : ((pts.map (fun p => p.1 * p.1)).sum -
      (pts.length : ℚ) * ((pts.map Prod.fst).sum / (pts.length : ℚ)) *
        ((pts.map Prod.fst).sum / (pts.length : ℚ))) * olsSlope pts =
      (pts.map (fun p => p.1 * p.2)).sum -
        (pts.length : ℚ) * ((pts.map Prod.fst).sum / (pts.length : ℚ)) *
          ((pts.map Prod.snd).sum / (pts.length : ℚ)) := by
    rw [hslope, mul_comm]
    exact div_mul_cancel₀ _ hCne
  have hSXe : (pts.length : ℚ) * ((pts.map Prod.fst).sum / (pts.length : ℚ)) =
      (pts.map Prod.fst).sum := by
    field_simp
  have hSYe : (pts.length : ℚ) * ((pts.map Prod.snd).sum / (pts.length : ℚ)) =
      (pts.map Prod.snd).sum := by
    field_simp
  rw [sse, sse, sum_map_sq_affine, sum_map_sq_affine]
  exact scalar_ols (pts.length : ℚ) (pts.map Prod.fst).sum (pts.map Prod.snd).sum
    (pts.map (fun p => p.1 * p.1)).sum (pts.map (fun p => p.1 * p.2)).sum
    (pts.map (fun p => p.2 * p.2)).sum
    ((pts.map Prod.fst).sum / (pts.length : ℚ))
    ((pts.map Prod.snd).sum / (pts.length : ℚ))
    (olsSlope pts) a b (le_of_lt hN) hCnn hSXe hSYe hbh

/-- C5: for every reading sequence with fewer than 2 readings, the fill-rate
estimate returns exactly the default `2.0` (and, being a total function,
raises no error). -/
theorem c5_insufficient_data_default (logs : List Reading)
    (h : logs.length < 2) : get_fill_rate logs = 2 := by
  unfold get_fill_rate
  exact if_pos h

/-- C5 witness: the empty reading sequence. -/
theorem c5_insufficient_data_default_witness :
    ([] : List Reading).length < 2 ∧ get_fill_rate [] = 2 :=
  ⟨by decide, c5_insufficient_data_default [] (by decide)⟩

/-- C6: `predict_time_to_full` returns `0` whenever `current_level ≥ 100`;
otherwise a non-positive `fill_rate` is replaced by `2.0` before dividing,
and the result is `(100 - current_level)` divided by the (substituted)
rate. -/
theorem c6_time_to_full (current_level fill_rate : ℚ) :
    (100 ≤ current_level → predict_time_to_full current_level fill_rate = 0) ∧
    (current_level < 100 → fill_rate ≤ 0 →
      predict_time_to_full current_level fill_rate = (100 - current_level) / 2) ∧
    (current_level < 100 → 0 < fill_rate →
      predict_time_to_full current_level fill_rate = (100 - current_level) / fill_rate) := by
  refine ⟨fun h => ?_, fun h hr => ?_, fun h hr => ?_⟩
  · unfold predict_time_to_full
    exact if_pos h
  · unfold predict_time_to_full
    rw [if_neg (not_le.mpr h)]
    simp only [if_pos hr]
  · unfold predict_time_to_full
    rw [if_neg (not_le.mpr h)]
    simp only [if_neg (not_le.mpr hr)]

/-- C6 witness: a full bin, a stalled bin, and a normally filling bin. -/
theorem c6_time_to_full_witness :
    predict_time_to_full 100 7 = 0 ∧
    predict_time_to_full 50 0 = (100 - 50) / 2 ∧
    predict_time_to_full 50 5 = (100 - 50) / 5 :=
  ⟨(c6_time_to_full 100 7).1 (by norm_num),
   (c6_time_to_full 50 0).2.1 (by norm_num) (by norm_num),
   (c6_time_to_full 50 5).2.2 (by norm_num) (by norm_num)⟩

/-- C4: the fill-rate estimate always lies in `(0, 10]`; moreover with at
least 2 readings a non-positive fitted slope yields the default `2.0` and a
slope above `10` is clamped to `10.0` (the degenerate fit `Sxx = 0` gives
slope `0`, hence also `2.0`) — the raw non-positive slope is never
returned. -/
theorem c4_clamp_invariant (logs : List Reading) :
    (0 < get_fill_rate logs ∧ get_fill_rate logs ≤ 10) ∧
    (olsSlope (fitPoints logs) ≤ 0 → ¬ logs.length < 2 → get_fill_rate logs = 2) ∧
    (10 < olsSlope (fitPoints logs) → ¬ logs.length < 2 → get_fill_rate logs = 10) := by
  simp only [get_fill_rate]
  split_ifs with h1 h2 h3
  · exact ⟨⟨by norm_num, by norm_num⟩, fun _ h => absurd h1 h, fun _ h => absurd h1 h⟩
  · exact ⟨⟨by norm_num, by norm_num⟩, fun _ _ => rfl, fun hs _ => absurd hs (by linarith)⟩
  · exact ⟨⟨by norm_num, by norm_num⟩, fun hs _ => absurd hs h2, fun _ _ => rfl⟩
  · push_neg at h2 h3
    exact ⟨⟨h2, h3⟩, fun hs _ => absurd hs (not_le.mpr h2), fun hs _ => absurd hs (not_lt.mpr h3)⟩

/-- C4 witness: the decreasing series (slope `-5`) is mapped to the default
`2.0`, inside the invariant range. -/
theorem c4_clamp_invariant_witness :
    (0 < get_fill_rate exDecreasing ∧ get_fill_rate exDecreasing ≤ 10) ∧
    get_fill_rate exDecreasing = 2 :=
  ⟨(c4_clamp_invariant exDecreasing).1,
   (c4_clamp_invariant exDecreasing).2.1
     (by norm_num [olsSlope, fitPoints, exDecreasing, hoursSince])
     (by norm_num [exDecreasing])⟩

/-- C3 counterexample: for the decreasing series 20% → 15% → 10% the
least-squares slope is `-5`, but the estimate returns the default `2.0`,
not the slope — so "for every reading sequence of at least 2 readings the
estimated fill rate is the OLS slope" is false as stated. -/
theorem c3_counterexample_clamped_slope :
    get_fill_rate exDecreasing ≠ olsSlope (fitPoints exDecreasing) := by
  have h1 : get_fill_rate exDecreasing = 2 := by
    norm_num [get_fill_rate, olsSlope, fitPoints, exDecreasing, hoursSince]
  have h2 : olsSlope (fitPoints exDecreasing) = -5 := by
    norm_num [olsSlope, fitPoints, exDecreasing, hoursSince]
  rw [h1, h2]
  norm_num

/-- C3 (amended): for every reading sequence of at least 2 readings whose
ordinary-least-squares slope `b` (of `level = a + b·hours`, hours elapsed
since the first reading) satisfies `0 < b ≤ 10`, the estimate returns
exactly `b` (outside that range the clamps of C4 replace it); in particular
the series (hour 0 → 10%, hour 1 → 15%, hour 2 → 20%) yields exactly
`5.0`. -/
theorem c3_fill_rate_is_ols_slope :
    (∀ logs : List Reading, 2 ≤ logs.length →
      0 < olsSlope (fitPoints logs) → olsSlope (fitPoints logs) ≤ 10 →
      get_fill_rate logs = olsSlope (fitPoints logs)) ∧
    get_fill_rate exLinear = 5 := by
  constructor
  · intro logs hlen hpos hle
    unfold get_fill_rate
    rw [if_neg (by omega)]
    simp only [if_neg (not_le.mpr hpos), if_neg (not_lt.mpr hle)]
  · norm_num [get_fill_rate, olsSlope, fitPoints, exLinear, hoursSince]

/-- C3 witness: the linear series discharges the slope-range hypotheses. -/
theorem c3_fill_rate_is_ols_slope_witness :
    2 ≤ exLinear.length ∧
    get_fill_rate exLinear = olsSlope (fitPoints exLinear) :=
  ⟨by norm_num [exLinear],
   c3_fill_rate_is_ols_slope.1 exLinear (by norm_num [exLinear])
     (by norm_num [olsSlope, fitPoints, exLinear, hoursSince])
     (by norm_num [olsSlope, fitPoints, exLinear, hoursSince])⟩

/-! ### Order-theoretic facts about the prediction sort key -/

theorem predLe_trans (a b c : Prediction) :
    predLe a b = true → predLe b c = true → predLe a c = true := by
  simp only [predLe, decide_eq_true_eq]
  rintro (h1 | ⟨h1, h1'⟩) (h2 | ⟨h2, h2'⟩)
  · exact Or.inl (h1.trans h2)
  · exact Or.inl (h2 ▸ h1)
  · exact Or.inl (h1 ▸ h2)
  · exact Or.inr ⟨h1.trans h2, h1'.trans h2'⟩

theorem predLe_total (a b : Prediction) : (predLe a b || predLe b a) = true := by
  simp only [predLe, Bool.or_eq_true, decide_eq_true_eq]
  rcases lt_trichotomy (predKey a).1 (predKey b).1 with h | h | h
  · exact Or.inl (Or.inl h)
  · rcases le_total (predKey a).2 (predKey b).2 with h2 | h2
    · exact Or.inl (Or.inr ⟨h, h2⟩)
    · exact Or.inr (Or.inr ⟨h.symm, h2⟩)
  · exact Or.inr (Or.inl h)

theorem predLe_of_key_eq (a b : Prediction) :
    predKey a = predKey b → predLe a b = true := by
  intro h
  simp only [predLe, decide_eq_true_eq]
  exact Or.inr ⟨congrArg Prod.fst h, le_of_eq (congrArg Prod.snd h)⟩

/-- Stability of the modelled Python sort: elements sharing a sort key keep
their input order, expressed as preservation of key-fibers by `mergeSort`. -/
theorem mergeSort_filter_key {α κ : Type} [DecidableEq κ] (key : α → κ)
    (le : α → α → Bool)
    (htrans : ∀ a b c, le a b = true → le b c = true → le a c = true)
    (htotal : ∀ a b, (le a b || le b a) = true)
    (hkey : ∀ a b, key a = key b → le a b = true)
    (l : List α) (k : κ) :
    (l.mergeSort le).filter (fun a => decide (key a = k)) =
      l.filter (fun a => decide (key a = k)) := by
  have hpw : (l.filter (fun a => decide (key a = k))).Pairwise
      (fun a b => le a b = true) := by
    refine List.pairwise_of_forall_mem_list ?_
    intro a ha b hb
    have hka := List.of_mem_filter ha
    have hkb := List.of_mem_filter hb
    simp only [decide_eq_true_eq] at hka hkb
    exact hkey a b (hka.trans hkb.symm)
  have h1 : (l.filter (fun a => decide (key a = k))).Sublist (l.mergeSort le) :=
    List.sublist_mergeSort htrans htotal hpw (List.filter_sublist l)
  have h2 : ((l.mergeSort le).filter (fun a => decide (key a = k))).Perm
      (l.filter (fun a => decide (key a = k))) :=
    (List.mergeSort_perm l le).filter _
  have h3 : ((l.filter (fun a => decide (key a = k))).filter
      (fun a => decide (key a = k))).Sublist
      ((l.mergeSort le).filter (fun a => decide (key a = k))) :=
    h1.filter _
  have h4 : (l.filter (fun a => decide (key a = k))).filter
      (fun a => decide (key a = k)) = l.filter (fun a => decide (key a = k)) := by
    apply List.filter_eq_self.mpr
    intro a ha
    have hfa := List.of_mem_filter ha
    exact hfa
  rw [h4] at h3
  exact (h3.eq_of_length h2.length_eq.symm).symm

/-- C7: every prediction produced by `predict_bins_needing_collection` comes
from an active input bin, and its priority tier is assigned by first match
in the order `level ≥ 90 → critical`, `level ≥ 80 → high`,
`hours_to_full ≤ threshold → medium`, else `low`; in particular a bin at
`current_level = 95` is tagged `critical` regardless of its fill rate. -/
theorem c7_priority_first_match (logs : ℕ → List Reading) (t : ℚ)
    (all_bins : List BinRow) :
    (∀ p ∈ predict_bins_needing_collection logs all_bins t,
      ∃ b ∈ all_bins, b.status = "active" ∧ needsAttention logs t b = true ∧
        p = mkPrediction logs t b) ∧
    (∀ b : BinRow,
      (mkPrediction logs t b).priority =
        specPriority b.waste_level
          (predict_time_to_full b.waste_level (get_fill_rate (logs b.bin_id))) t) ∧
    (∀ b : BinRow, b.waste_level = 95 →
      (mkPrediction logs t b).priority = "critical") := by
  refine ⟨?_, ?_, ?_⟩
  · intro p hp
    have hp' : p ∈ rawPredictions logs t all_bins :=
      ((List.mergeSort_perm _ predLe).mem_iff).mp hp
    simp only [rawPredictions, List.mem_map, List.mem_filter,
      decide_eq_true_eq] at hp'
    obtain ⟨b, ⟨⟨hb, hact⟩, hneed⟩, hEq⟩ := hp'
    exact ⟨b, hb, hact, hneed, hEq.symm⟩
  · intro b
    simp only [mkPrediction, pyPriority, specPriority, specPriorityRules]
    by_cases h1 : (90 : ℚ) ≤ b.waste_level <;>
      by_cases h2 : (80 : ℚ) ≤ b.waste_level <;>
      by_cases h3 : predict_time_to_full b.waste_level
        (get_fill_rate (logs b.bin_id)) ≤ t <;>
      simp [h1, h2, h3, List.find?]
  · intro b hb
    simp only [mkPrediction, pyPriority]
    rw [if_pos (by rw [hb]; norm_num)]

/-- C7 witness: a bin at 95% with no sensor history is tagged critical. -/
theorem c7_priority_first_match_witness :
    (mkPrediction logsEmpty 24 rowHigh).priority = "critical" :=
  (c7_priority_first_match logsEmpty 24 [rowHigh]).2.2 rowHigh rfl

/-- C8: the prediction list is sorted by the key
`(priority tier rank, -current_level)` under Python's ascending
lexicographic tuple order (tiers `critical(0) < high(1) < medium(2) <
low(3)`, higher level first within a tier); it is a permutation of the
pre-sort list, the ordering is total, and ties (equal keys) keep input
order (stability, expressed as preservation of every key-fiber). -/
theorem c8_ranking_sort (logs : ℕ → List Reading) (t : ℚ)
    (all_bins : List BinRow) :
    (predict_bins_needing_collection logs all_bins t).Pairwise
      (fun p q => predLe p q = true) ∧
    (predict_bins_needing_collection logs all_bins t).Perm
      (rawPredictions logs t all_bins) ∧
    (∀ k : ℕ × ℚ,
      (predict_bins_needing_collection logs all_bins t).filter
        (fun p => decide (predKey p = k)) =
      (rawPredictions logs t all_bins).filter
        (fun p => decide (predKey p = k))) ∧
    (∀ p q : Prediction, (predLe p q || predLe q p) = true) := by
  refine ⟨?_, ?_, ?_, predLe_total⟩
  · exact List.sorted_mergeSort predLe_trans predLe_total _
  · exact List.mergeSort_perm _ _
  · intro k
    exact mergeSort_filter_key predKey predLe predLe_trans predLe_total
      predLe_of_key_eq _ k

/-- C10: `get_optimal_collection_bins` returns at most `max_bins` entries,
every returned entry has `needs_collection = true`, and the returned entries
appear in the same relative order as in the ranked prediction list
(they form a sublist of it). -/
theorem c10_optimal_collection (logs : ℕ → List Reading)
    (all_bins : List BinRow) (max_bins : ℕ) :
    (get_optimal_collection_bins logs all_bins max_bins).length ≤ max_bins ∧
    (get_optimal_collection_bins logs all_bins max_bins).all
      (fun p => p.needs_collection) = true ∧
    (get_optimal_collection_bins logs all_bins max_bins).Sublist
      (predict_bins_needing_collection logs all_bins 24) := by
  refine ⟨?_, ?_, ?_⟩
  · rw [get_optimal_collection_bins, List.length_take]
    exact inf_le_left
  · rw [List.all_eq_true]
    intro p hp
    have hp' : p ∈ (predict_bins_needing_collection logs all_bins 24).filter
        (fun p => p.needs_collection) :=
      List.mem_of_mem_take hp
    exact List.of_mem_filter hp'
  · exact (List.take_sublist _ _).trans (List.filter_sublist _)

/-! ### Facts about the best-candidate scan and the greedy loop -/

theorem foldl_selectStep_some (dist : ℚ → ℚ → ℚ → ℚ → ℚ) (clat clon : ℚ) :
    ∀ (l : List VBin) (acc : Option (VBin × ℚ × ℚ)) (b : VBin) (d s : ℚ),
      l.foldl (selectStep dist clat clon) acc = some (b, d, s) →
      acc = some (b, d, s) ∨
        (b ∈ l ∧ d = binDist dist clat clon b ∧ s = binScore dist clat clon b) := by
  intro l
  induction l with
  | nil => intro acc b d s hf; exact Or.inl hf
  | cons a as ih =>
    intro acc b d s hf
    rcases ih (selectStep dist clat clon acc a) b d s hf with h1 | h1
    · rcases acc with _ | ⟨b0, d0, s0⟩
      · simp only [selectStep, Option.some.injEq, Prod.mk.injEq] at h1
        obtain ⟨rfl, rfl, rfl⟩ := h1
        exact Or.inr ⟨List.mem_cons_self a as, rfl, rfl⟩
      · simp only [selectStep] at h1
        split at h1
        · simp only [Option.some.injEq, Prod.mk.injEq] at h1
          obtain ⟨rfl, rfl, rfl⟩ := h1
          exact Or.inr ⟨List.mem_cons_self a as, rfl, rfl⟩
        · exact Or.inl h1
    · exact Or.inr ⟨List.mem_cons_of_mem a h1.1, h1.2⟩

theorem selectBest_eq_some (dist : ℚ → ℚ → ℚ → ℚ → ℚ) (clat clon : ℚ)
    (l : List VBin) (b : VBin) (d s : ℚ)
    (h : selectBest dist clat clon l = some (b, d, s)) :
    b ∈ l ∧ d = binDist dist clat clon b ∧ s = binScore dist clat clon b := by
  rcases foldl_selectStep_some dist clat clon l none b d s h with h1 | h1
  · exact absurd h1 (by simp)
  · exact h1

theorem foldl_selectStep_isSome (dist : ℚ → ℚ → ℚ → ℚ → ℚ) (clat clon : ℚ) :
    ∀ (l : List VBin) (x : VBin × ℚ × ℚ),
      (l.foldl (selectStep dist clat clon) (some x)).isSome = true := by
  intro l
  induction l with
  | nil => intro x; rfl
  | cons a as ih =>
    intro x
    obtain ⟨b0, d0, s0⟩ := x
    show (as.foldl (selectStep dist clat clon)
      (selectStep dist clat clon (some (b0, d0, s0)) a)).isSome = true
    simp only [selectStep]
    split
    · exact ih _
    · exact ih _

theorem selectBest_eq_none (dist : ℚ → ℚ → ℚ → ℚ → ℚ) (clat clon : ℚ)
    (l : List VBin) (h : selectBest dist clat clon l = none) : l = [] := by
  cases l with
  | nil => rfl
  | cons a as =>
    exfalso
    have h2 := foldl_selectStep_isSome dist clat clon as
      (a, binDist dist clat clon a, binScore dist clat clon a)
    have h3 : selectBest dist clat clon (a :: as) =
        as.foldl (selectStep dist clat clon)
          (some (a, binDist dist clat clon a, binScore dist clat clon a)) := rfl
    rw [h3] at h
    rw [h] at h2
    simp at h2

theorem foldl_selectStep_stay (dist : ℚ → ℚ → ℚ → ℚ → ℚ) (clat clon : ℚ) :
    ∀ (l : List VBin) (b0 : VBin) (d0 s0 : ℚ),
      (∀ x ∈ l, binScore dist clat clon x ≤ s0) →
      l.foldl (selectStep dist clat clon) (some (b0, d0, s0)) = some (b0, d0, s0) := by
  intro l
  induction l with
  | nil => intro b0 d0 s0 _; rfl
  | cons a as ih =>
    intro b0 d0 s0 hmax
    have hstep : selectStep dist clat clon (some (b0, d0, s0)) a = some (b0, d0, s0) := by
      simp only [selectStep]
      rw [if_neg (not_lt.mpr (hmax a (List.mem_cons_self a as)))]
    show as.foldl (selectStep dist clat clon)
      (selectStep dist clat clon (some (b0, d0, s0)) a) = some (b0, d0, s0)
    rw [hstep]
    exact ih b0 d0 s0 (fun x hx => hmax x (List.mem_cons_of_mem a hx))

theorem selectBest_cons_head_max (dist : ℚ → ℚ → ℚ → ℚ → ℚ) (clat clon : ℚ)
    (hd : VBin) (tl : List VBin)
    (hmax : ∀ x ∈ tl, binScore dist clat clon x ≤ binScore dist clat clon hd) :
    selectBest dist clat clon (hd :: tl) =
      some (hd, binDist dist clat clon hd, binScore dist clat clon hd) := by
  show tl.foldl (selectStep dist clat clon) (selectStep dist clat clon none hd) =
    some (hd, binDist dist clat clon hd, binScore dist clat clon hd)
  have hfirst : selectStep dist clat clon none hd =
      some (hd, binDist dist clat clon hd, binScore dist clat clon hd) := rfl
  rw [hfirst]
  exact foldl_selectStep_stay dist clat clon tl hd _ _ hmax

theorem nnLoop_eq_of_selectBest (dist : ℚ → ℚ → ℚ → ℚ → ℚ)
    (remaining : List VBin) (clat clon : ℚ) (b : VBin) (d s : ℚ)
    (h : selectBest dist clat clon remaining = some (b, d, s)) :
    nnLoop dist remaining clat clon =
      (b, d) :: nnLoop dist (remaining.erase b) b.latitude b.longitude := by
  rw [nnLoop]
  split
  · rename_i heq
    rw [h] at heq
    cases heq
  · rename_i b' d' s' heq
    rw [h] at heq
    cases heq
    rfl

theorem nnLoop_nil (dist : ℚ → ℚ → ℚ → ℚ → ℚ) (clat clon : ℚ) :
    nnLoop dist [] clat clon = [] := by
  rw [nnLoop]
  split
  · rfl
  · rename_i b d s heq
    simp [selectBest] at heq

theorem nnLoop_ne_nil (dist : ℚ → ℚ → ℚ → ℚ → ℚ) (remaining : List VBin)
    (clat clon : ℚ) (h : remaining ≠ []) : nnLoop dist remaining clat clon ≠ [] := by
  cases hsel : selectBest dist clat clon remaining with
  | none => exact absurd (selectBest_eq_none dist clat clon remaining hsel) h
  | some x =>
    obtain ⟨b, d, s⟩ := x
    rw [nnLoop_eq_of_selectBest dist remaining clat clon b d s hsel]
    exact List.cons_ne_nil _ _

theorem nnLoop_fst_perm_aux (dist : ℚ → ℚ → ℚ → ℚ → ℚ) :
    ∀ (n : ℕ) (remaining : List VBin) (clat clon : ℚ), remaining.length ≤ n →
      ((nnLoop dist remaining clat clon).map Prod.fst).Perm remaining := by
  intro n
  induction n with
  | zero =>
    intro remaining clat clon hlen
    obtain rfl : remaining = [] :=
      List.eq_nil_of_length_eq_zero (Nat.le_zero.mp hlen)
    rw [nnLoop_nil]
    rfl
  | succ n ih =>
    intro remaining clat clon hlen
    cases hsel : selectBest dist clat clon remaining with
    | none =>
      obtain rfl := selectBest_eq_none dist clat clon remaining hsel
      rw [nnLoop_nil]
      rfl
    | some x =>
      obtain ⟨b, d, s⟩ := x
      obtain ⟨hmem, -, -⟩ := selectBest_eq_some dist clat clon remaining b d s hsel
      rw [nnLoop_eq_of_selectBest dist remaining clat clon b d s hsel]
      simp only [List.map_cons]
      have hlen2 : (remaining.erase b).length ≤ n := by
        rw [List.length_erase_of_mem hmem]
        have : 0 < remaining.length := List.length_pos.mpr (List.ne_nil_of_mem hmem)
        omega
      exact ((ih (remaining.erase b) b.latitude b.longitude hlen2).cons b).trans
        (List.perm_cons_erase hmem).symm

theorem nnLoop_fst_perm (dist : ℚ → ℚ → ℚ → ℚ → ℚ) (remaining : List VBin)
    (clat clon : ℚ) :
    ((nnLoop dist remaining clat clon).map Prod.fst).Perm remaining :=
  nnLoop_fst_perm_aux dist remaining.length remaining clat clon le_rfl

/-! ### Facts about stop-record assembly -/

theorem mkStops_map_stopData :
    ∀ (n : ℕ) (pairs : List (VBin × ℚ)),
      (mkStops n pairs).map stopData = pairs.map (fun p => vbinData p.1) := by
  intro n pairs
  induction pairs generalizing n with
  | nil => rfl
  | cons p rest ih =>
    obtain ⟨b, d⟩ := p
    simp only [mkStops, List.map_cons, ih (n + 1)]
    rfl

theorem mkStops_length :
    ∀ (n : ℕ) (pairs : List (VBin × ℚ)), (mkStops n pairs).length = pairs.length := by
  intro n pairs
  induction pairs generalizing n with
  | nil => rfl
  | cons p rest ih =>
    obtain ⟨b, d⟩ := p
    simp only [mkStops, List.length_cons, ih (n + 1)]

theorem mkStops_map_waste :
    ∀ (n : ℕ) (pairs : List (VBin × ℚ)),
      (mkStops n pairs).map RouteStop.waste_level =
        pairs.map (fun p => p.1.waste_level) := by
  intro n pairs
  induction pairs generalizing n with
  | nil => rfl
  | cons p rest ih =>
    obtain ⟨b, d⟩ := p
    simp only [mkStops, List.map_cons, ih (n + 1)]

theorem mkStops_eq_nil (n : ℕ) (pairs : List (VBin × ℚ)) :
    mkStops n pairs = [] ↔ pairs = [] := by
  cases pairs with
  | nil => simp [mkStops]
  | cons p rest =>
    obtain ⟨b, d⟩ := p
    simp [mkStops]

theorem hops_mkStops_aux (dist : ℚ → ℚ → ℚ → ℚ → ℚ) :
    ∀ (n : ℕ) (remaining : List VBin) (clat clon : ℚ) (m : ℕ),
      remaining.length ≤ n →
      hops dist (clat, clon) (mkStops m (nnLoop dist remaining clat clon)) =
        (nnLoop dist remaining clat clon).map Prod.snd := by
  intro n
  induction n with
  | zero =>
    intro remaining clat clon m hlen
    obtain rfl : remaining = [] :=
      List.eq_nil_of_length_eq_zero (Nat.le_zero.mp hlen)
    rw [nnLoop_nil]
    rfl
  | succ n ih =>
    intro remaining clat clon m hlen
    cases hsel : selectBest dist clat clon remaining with
    | none =>
      obtain rfl := selectBest_eq_none dist clat clon remaining hsel
      rw [nnLoop_nil]
      rfl
    | some x =>
      obtain ⟨b, d, s⟩ := x
      obtain ⟨hmem, hd, -⟩ := selectBest_eq_some dist clat clon remaining b d s hsel
      rw [nnLoop_eq_of_selectBest dist remaining clat clon b d s hsel]
      have hlen2 : (remaining.erase b).length ≤ n := by
        rw [List.length_erase_of_mem hmem]
        have : 0 < remaining.length := List.length_pos.mpr (List.ne_nil_of_mem hmem)
        omega
      simp only [mkStops, hops, List.map_cons]
      rw [hd, ih (remaining.erase b) b.latitude b.longitude (m + 1) hlen2]
      rfl

theorem hops_mkStops (dist : ℚ → ℚ → ℚ → ℚ → ℚ) (remaining : List VBin)
    (clat clon : ℚ) (m : ℕ) :
    hops dist (clat, clon) (mkStops m (nnLoop dist remaining clat clon)) =
      (nnLoop dist remaining clat clon).map Prod.snd :=
  hops_mkStops_aux dist remaining.length remaining clat clon m le_rfl

/-! ### Order facts about the priority sort -/

theorem priorityDescLe_trans (a b c : VBin) :
    priorityDescLe a b = true → priorityDescLe b c = true →
    priorityDescLe a c = true := by
  simp only [priorityDescLe, decide_eq_true_eq]
  exact fun h1 h2 => h2.trans h1

theorem priorityDescLe_total (a b : VBin) :
    (priorityDescLe a b || priorityDescLe b a) = true := by
  simp only [priorityDescLe, Bool.or_eq_true, decide_eq_true_eq]
  exact le_total b.priority_score a.priority_score

theorem priorityDescLe_of_key_eq (a b : VBin) :
    a.priority_score = b.priority_score → priorityDescLe a b = true := by
  intro h
  simp only [priorityDescLe, decide_eq_true_eq]
  exact le_of_eq h.symm

theorem find?_eq_head?_filter {α : Type} (p : α → Bool) :
    ∀ l : List α, l.find? p = (l.filter p).head? := by
  intro l
  induction l with
  | nil => rfl
  | cons a as ih =>
    by_cases h : p a = true
    · rw [List.find?_cons_of_pos _ h, List.filter_cons_of_pos h]
      rfl
    · rw [List.find?_cons_of_neg _ (by simpa using h),
        List.filter_cons_of_neg (by simpa using h)]
      exact ih

/-- C1 counterexample: an active bin whose latitude is the present, valid
coordinate `0.0` (with longitude `10.0`) is silently dropped from the route,
because the fetch filter uses Python truthiness (`if bin_data['latitude']`)
and `0.0` is falsy — so "the route contains each input bin that has a valid
coordinate pair exactly once" fails as stated. -/
theorem c1_counterexample_zero_latitude :
    lookupEquator 1 = some rowEquator ∧
    rowEquator.latitude = some 0 ∧
    rowEquator.longitude = some 10 ∧
    (optimize_route distTaxi lookupEquator [1] none).bins = [] := by
  refine ⟨rfl, rfl, rfl, ?_⟩
  have hfetch : fetchBins lookupEquator [1] = [] := by
    simp [fetchBins, lookupEquator, rowEquator, toVBin, truthy]
  simp [optimize_route, hfetch, emptyRoute]

/-- C1 (amended): for every distance oracle, storage snapshot, id list and
optional start, the stops of the returned route carry exactly the bins that
pass the coordinate check — both coordinates present *and nonzero* (Python
truthiness) — each exactly once (as a multiset; ids are unique in the
`bins` table), and every bin failing the check is silently dropped: the
stop payload list is a permutation of the surviving-bin payload list, with
no error raised and no substitute stop. -/
theorem c1_route_bins_perm (dist : ℚ → ℚ → ℚ → ℚ → ℚ)
    (lookup : ℕ → Option BinRow) (bin_ids : List ℕ)
    (start_location : Option (ℚ × ℚ)) :
    (((optimize_route dist lookup bin_ids start_location).bins).map stopData).Perm
      ((fetchBins lookup bin_ids).map vbinData) := by
  simp only [optimize_route]
  split_ifs with h1 h2
  · subst h1
    simp [emptyRoute, fetchBins]
  · rw [h2]
    simp [emptyRoute]
  · cases start_location with
    | some s =>
      obtain ⟨la, lo⟩ := s
      simp only [assembleRoute]
      rw [mkStops_map_stopData]
      have heq : (nnLoop dist (fetchBins lookup bin_ids) la lo).map
            (fun p => vbinData p.1) =
          ((nnLoop dist (fetchBins lookup bin_ids) la lo).map Prod.fst).map
            vbinData := by
        rw [List.map_map]
        rfl
      rw [heq]
      exact (nnLoop_fst_perm dist (fetchBins lookup bin_ids) la lo).map vbinData
    | none =>
      cases hsort : sortByPriorityDesc (fetchBins lookup bin_ids) with
      | nil =>
        exfalso
        apply h2
        have hp := List.mergeSort_perm (fetchBins lookup bin_ids) priorityDescLe
        rw [sortByPriorityDesc] at hsort
        rw [hsort] at hp
        exact hp.symm.eq_nil
      | cons hd tl =>
        simp only [assembleRoute]
        rw [mkStops_map_stopData]
        have heq : (nnLoop dist (hd :: tl) hd.latitude hd.longitude).map
              (fun p => vbinData p.1) =
            ((nnLoop dist (hd :: tl) hd.latitude hd.longitude).map Prod.fst).map
              vbinData := by
          rw [List.map_map]
          rfl
        rw [heq]
        have hperm2 : (hd :: tl).Perm (fetchBins lookup bin_ids) := by
          have hp := List.mergeSort_perm (fetchBins lookup bin_ids) priorityDescLe
          rw [sortByPriorityDesc] at hsort
          rw [hsort] at hp
          exact hp
        exact ((nnLoop_fst_perm dist (hd :: tl) hd.latitude hd.longitude).trans
          hperm2).map vbinData

/-- C2: for every distance oracle that is non-negative and has zero
self-distance (both true of haversine), calling `optimize_route` without a
start location behaves exactly as if the bin with the highest priority score
(ties: first encountered) were made stop #1 immediately — with hop distance
0 and without being subjected to the distance-weighted selection rule — and
removed from the pool before the main greedy loop: the code's route equals
the pre-removal route, and the head of the sorted pool is the
first-encountered maximal-priority bin. -/
theorem c2_unstarted_route_starts_at_max_priority (dist : ℚ → ℚ → ℚ → ℚ → ℚ)
    (lookup : ℕ → Option BinRow) (bin_ids : List ℕ)
    (hnn : ∀ a b c d : ℚ, 0 ≤ dist a b c d)
    (hzero : ∀ a b : ℚ, dist a b a b = 0) :
    optimize_route dist lookup bin_ids none = route_preRemoval dist lookup bin_ids ∧
    (sortByPriorityDesc (fetchBins lookup bin_ids)).head? =
      firstMaxPriority (fetchBins lookup bin_ids) := by
  constructor
  · simp only [optimize_route, route_preRemoval]
    split_ifs with h1 h2
    · rfl
    · rw [h2]
      simp [sortByPriorityDesc]
    · cases hsort : sortByPriorityDesc (fetchBins lookup bin_ids) with
      | nil => rfl
      | cons hd tl =>
        have hsorted : List.Pairwise (fun a b => priorityDescLe a b = true)
            (hd :: tl) := by
          have hs := List.sorted_mergeSort priorityDescLe_trans priorityDescLe_total
            (fetchBins lookup bin_ids)
          rw [sortByPriorityDesc] at hsort
          rw [hsort] at hs
          exact hs
        have hdist0 : binDist dist hd.latitude hd.longitude hd = 0 := by
          simp [binDist, hzero]
        have hmax : ∀ x ∈ tl, binScore dist hd.latitude hd.longitude x ≤
            binScore dist hd.latitude hd.longitude hd := by
          intro x hx
          have hple : x.priority_score ≤ hd.priority_score := by
            have hp := (List.pairwise_cons.mp hsorted).1 x hx
            simpa [priorityDescLe, decide_eq_true_eq] using hp
          have hxnn : 0 ≤ binDist dist hd.latitude hd.longitude x := hnn _ _ _ _
          simp only [binScore, hdist0, distance_weight]
          linarith
        have hsel := selectBest_cons_head_max dist hd.latitude hd.longitude hd tl hmax
        have hloop := nnLoop_eq_of_selectBest dist (hd :: tl) hd.latitude hd.longitude
          hd _ _ hsel
        rw [List.erase_cons_head] at hloop
        show assembleRoute (nnLoop dist (hd :: tl) hd.latitude hd.longitude) =
          assembleRoute ((hd, 0) :: nnLoop dist tl hd.latitude hd.longitude)
        rw [hloop, hdist0]
  · cases hsort : sortByPriorityDesc (fetchBins lookup bin_ids) with
    | nil =>
      have hnil : fetchBins lookup bin_ids = [] := by
        have hp := List.mergeSort_perm (fetchBins lookup bin_ids) priorityDescLe
        rw [sortByPriorityDesc] at hsort
        rw [hsort] at hp
        exact hp.symm.eq_nil
      rw [hnil]
      rfl
    | cons hd tl =>
      have hperm : (hd :: tl).Perm (fetchBins lookup bin_ids) := by
        have hp := List.mergeSort_perm (fetchBins lookup bin_ids) priorityDescLe
        rw [sortByPriorityDesc] at hsort
        rw [hsort] at hp
        exact hp
      have hsorted : List.Pairwise (fun a b => priorityDescLe a b = true)
          (hd :: tl) := by
        have hs := List.sorted_mergeSort priorityDescLe_trans priorityDescLe_total
          (fetchBins lookup bin_ids)
        rw [sortByPriorityDesc] at hsort
        rw [hsort] at hs
        exact hs
      have hmemhd : hd ∈ fetchBins lookup bin_ids :=
        hperm.mem_iff.mp (List.mem_cons_self hd tl)
      have hmax : ∀ b' ∈ fetchBins lookup bin_ids,
          b'.priority_score ≤ hd.priority_score := by
        intro b' hb'
        rcases List.mem_cons.mp (hperm.mem_iff.mpr hb') with rfl | hb'3
        · exact le_rfl
        · have hp := (List.pairwise_cons.mp hsorted).1 b' hb'3
          simpa [priorityDescLe, decide_eq_true_eq] using hp
      rw [firstMaxPriority, find?_eq_head?_filter]
      have hcongr : (fetchBins lookup bin_ids).filter
            (fun b => (fetchBins lookup bin_ids).all
              (fun b' => decide (b'.priority_score ≤ b.priority_score))) =
          (fetchBins lookup bin_ids).filter
            (fun b => decide (b.priority_score = hd.priority_score)) := by
        apply List.filter_congr
        intro x hx
        by_cases hxeq : x.priority_score = hd.priority_score
        · have hall : (fetchBins lookup bin_ids).all
              (fun b' => decide (b'.priority_score ≤ x.priority_score)) = true := by
            rw [List.all_eq_true]
            intro b' hb'
            rw [hxeq]
            simpa using hmax b' hb'
          rw [hall]
          simp [hxeq]
        · have hnotall : (fetchBins lookup bin_ids).all
              (fun b' => decide (b'.priority_score ≤ x.priority_score)) = false := by
            rw [Bool.eq_false_iff]
            intro hall
            rw [List.all_eq_true] at hall
            have hhd := hall hd hmemhd
            simp only [decide_eq_true_eq] at hhd
            exact hxeq (le_antisymm (hmax x hx) hhd)
          rw [hnotall]
          simp [hxeq]
      rw [hcongr]
      have hstab := mergeSort_filter_key VBin.priority_score priorityDescLe
        priorityDescLe_trans priorityDescLe_total priorityDescLe_of_key_eq
        (fetchBins lookup bin_ids) hd.priority_score
      rw [← hstab]
      rw [sortByPriorityDesc] at hsort
      rw [hsort]
      rw [List.filter_cons_of_pos (by simp)]
      rfl

/-- C2 witness: two concrete bins with the taxicab oracle (non-negative,
zero self-distance): the code's no-start route equals the pre-removal route
and starts at the first maximal-priority bin. -/
theorem c2_unstarted_route_starts_at_max_priority_witness :
    optimize_route distTaxi lookupPair [1, 2] none =
      route_preRemoval distTaxi lookupPair [1, 2] ∧
    (sortByPriorityDesc (fetchBins lookupPair [1, 2])).head? =
      firstMaxPriority (fetchBins lookupPair [1, 2]) :=
  c2_unstarted_route_starts_at_max_priority distTaxi lookupPair [1, 2]
    (fun a b c d => add_nonneg (abs_nonneg _) (abs_nonneg _))
    (fun a b => by simp [distTaxi])

theorem pyRound_zero (n : ℕ) : pyRound n 0 = 0 := by
  norm_num [pyRound, roundHalfEven]

/-- C9 counterexample: with a distance oracle returning 0.004 km for every
hop, the two stops each store `round(0.004, 2) = 0.0` as
`distance_from_previous`, but `total_distance` is the rounding of the exact
sum, `round(0.008, 2) = 0.01` — so "total_distance equals the sum of each
stop's distance_from_previous_km" is false as stated. -/
theorem c9_counterexample_rounded_stops :
    (optimize_route distConst lookupPair [1, 2] (some (0, 0))).total_distance ≠
      ((optimize_route distConst lookupPair [1, 2] (some (0, 0))).bins.map
        RouteStop.distance_from_previous).sum := by
  have hfetch : fetchBins lookupPair [1, 2] = [vbHigh, vbLow] := by
    norm_num [fetchBins, lookupPair, rowHigh, rowLow, toVBin, truthy,
      get_bin_priority_score, vbHigh, vbLow, List.filterMap_cons,
      List.filterMap_nil, Option.some_bind]
  have hsel1 : selectBest distConst 0 0 [vbHigh, vbLow] =
      some (vbHigh, 1/250, 4999/50) := by
    norm_num [selectBest, selectStep, binDist, binScore, distConst,
      distance_weight, vbHigh, vbLow]
  have hsel2 : selectBest distConst vbHigh.latitude vbHigh.longitude [vbLow] =
      some (vbLow, 1/250, 999/50) := by
    norm_num [selectBest, selectStep, binDist, binScore, distConst,
      distance_weight, vbHigh, vbLow]
  have hpairs : nnLoop distConst [vbHigh, vbLow] 0 0 =
      [(vbHigh, 1/250), (vbLow, 1/250)] := by
    rw [nnLoop_eq_of_selectBest distConst [vbHigh, vbLow] 0 0 vbHigh (1/250)
        (4999/50) hsel1,
      List.erase_cons_head,
      nnLoop_eq_of_selectBest distConst [vbLow] vbHigh.latitude vbHigh.longitude
        vbLow (1/250) (999/50) hsel2,
      List.erase_cons_head,
      nnLoop_nil]
  have hroute : optimize_route distConst lookupPair [1, 2] (some (0, 0)) =
      assembleRoute [(vbHigh, 1/250), (vbLow, 1/250)] := by
    simp only [optimize_route, hfetch]
    rw [if_neg (by simp), if_neg (by simp)]
    exact congrArg assembleRoute hpairs
  rw [hroute]
  norm_num [assembleRoute, mkStops, pyRound, roundHalfEven]

/-- C9 (amended): whenever the greedy loop runs from a start position `p0`
(the supplied `start_location`, or the head of the priority-sorted pool),
`total_distance_km` equals the *unrounded* consecutive hop distances along
the returned stop sequence summed and then rounded to 2 decimals (the
per-stop `distance_from_previous_km` values are rounded individually, so
their sum may differ — see the counterexample), and `average_waste_level`
equals the mean of the included bins' waste levels rounded to 2 decimals;
when the route is empty the result is the early-return dictionary:
`total_distance = 0` and *no* `average_waste_level` key at all (`none`),
rather than `0`. -/
theorem c9_route_aggregates (dist : ℚ → ℚ → ℚ → ℚ → ℚ)
    (lookup : ℕ → Option BinRow) (bin_ids : List ℕ)
    (start_location : Option (ℚ × ℚ)) :
    (∀ p0 : ℚ × ℚ, initialPos lookup bin_ids start_location = some p0 →
      (optimize_route dist lookup bin_ids start_location).total_distance =
        pyRound 2 (hops dist p0
          (optimize_route dist lookup bin_ids start_location).bins).sum ∧
      ((optimize_route dist lookup bin_ids start_location).bins ≠ [] →
        (optimize_route dist lookup bin_ids start_location).average_waste_level =
          some (pyRound 2
            (((optimize_route dist lookup bin_ids start_location).bins.map
                RouteStop.waste_level).sum /
              ((optimize_route dist lookup bin_ids start_location).bins.length : ℚ))))) ∧
    ((optimize_route dist lookup bin_ids start_location).bins = [] →
      (optimize_route dist lookup bin_ids start_location).total_distance = 0 ∧
      (optimize_route dist lookup bin_ids start_location).average_waste_level =
        none) := by
  by_cases h1 : bin_ids = []
  · have hroute : optimize_route dist lookup bin_ids start_location = emptyRoute := by
      simp [optimize_route, h1]
    rw [hroute]
    refine ⟨fun p0 _ => ⟨?_, fun hb => absurd rfl hb⟩, fun _ => ⟨rfl, rfl⟩⟩
    show (0 : ℚ) = pyRound 2 (hops dist p0 []).sum
    simp [hops, pyRound_zero]
  · by_cases h2 : fetchBins lookup bin_ids = []
    · have hroute : optimize_route dist lookup bin_ids start_location = emptyRoute := by
        simp [optimize_route, h1, h2]
      rw [hroute]
      refine ⟨fun p0 _ => ⟨?_, fun hb => absurd rfl hb⟩, fun _ => ⟨rfl, rfl⟩⟩
      show (0 : ℚ) = pyRound 2 (hops dist p0 []).sum
      simp [hops, pyRound_zero]
    · cases start_location with
      | some s =>
        obtain ⟨la, lo⟩ := s
        have hroute : optimize_route dist lookup bin_ids (some (la, lo)) =
            assembleRoute (nnLoop dist (fetchBins lookup bin_ids) la lo) := by
          simp [optimize_route, h1, h2]
        refine ⟨fun p0 hp0 => ?_, fun hb => ?_⟩
        · have hp0' : p0 = (la, lo) := by
            simp only [initialPos, Option.some.injEq] at hp0
            exact hp0.symm
          subst hp0'
          rw [hroute]
          simp only [assembleRoute]
          constructor
          · rw [hops_mkStops]
          · intro hb
            rw [if_neg hb]
        · exfalso
          rw [hroute] at hb
          simp only [assembleRoute] at hb
          exact nnLoop_ne_nil dist _ la lo h2 ((mkStops_eq_nil 0 _).mp hb)
      | none =>
        cases hsort : sortByPriorityDesc (fetchBins lookup bin_ids) with
        | nil =>
          exfalso
          apply h2
          have hp := List.mergeSort_perm (fetchBins lookup bin_ids) priorityDescLe
          rw [sortByPriorityDesc] at hsort
          rw [hsort] at hp
          exact hp.symm.eq_nil
        | cons hd tl =>
          have hroute : optimize_route dist lookup bin_ids none =
              assembleRoute (nnLoop dist (hd :: tl) hd.latitude hd.longitude) := by
            simp [optimize_route, h1, h2, hsort]
          have hpos : initialPos lookup bin_ids none =
              some (hd.latitude, hd.longitude) := by
            simp [initialPos, hsort]
          refine ⟨fun p0 hp0 => ?_, fun hb => ?_⟩
          · rw [hpos, Option.some.injEq] at hp0
            subst hp0
            rw [hroute]
            simp only [assembleRoute]
            constructor
            · rw [hops_mkStops]
            · intro hb
              rw [if_neg hb]
          · exfalso
            rw [hroute] at hb
            simp only [assembleRoute] at hb
            exact nnLoop_ne_nil dist _ hd.latitude hd.longitude
              (List.cons_ne_nil hd tl) ((mkStops_eq_nil 0 _).mp hb)

/-- C9 witness: a concrete started route where the rounded-sum identity and
the average identity hold. -/
theorem c9_route_aggregates_witness :
    (optimize_route distTaxi lookupPair [1, 2] (some (0, 0))).total_distance =
      pyRound 2 (hops distTaxi (0, 0)
        (optimize_route distTaxi lookupPair [1, 2] (some (0, 0))).bins).sum :=
  (((c9_route_aggregates distTaxi lookupPair [1, 2] (some (0, 0))).1
    (0, 0) rfl)).1

end SmartWaste
